import Mathlib

/-!
# Verification of `forge/src/gas_report.rs`

A shallow embedding of the gas-report core: recursive traversal and
filtering of call-trace trees, accumulation of gas-cost samples,
derivation of summary statistics (`finalize`), and the table-section
structure of the `Display` rendering.

Machine integers (`U256`, `u64`, `usize`) are modelled as `Nat`: the
core only needs unsigned arithmetic, ordering and string conversion.
`BTreeMap` is modelled as an association list kept in ascending key
order by a sorted-position insert (`btreeUpdate`), with first-match
lookup (`btreeFind`); iteration order is the list order.
The call-trace arena (external to this crate's gas-report module) is
modelled as an inductive tree, which is the acyclic, index-valid shape
the core assumes of its input.
-/

/-- Modelled from the spec: the fixed cheat-code sentinel address
(`CHEATCODE_ADDRESS`, defined in the external `executor` module). -/
def CHEATCODE_ADDRESS : Nat := 0x7109709ECfa91a80626fF3989D68f67F5b1DD12D

/-- Modelled from the spec: the console-logging sentinel address
(`HARDHAT_CONSOLE_ADDRESS`, defined in the external `executor` module). -/
def HARDHAT_CONSOLE_ADDRESS : Nat := 0x000000000000000000636F6e736F6c652e6c6f67

/-- Modelled from the spec: the payload tagged union of the external
`trace` module — either raw bytes or a decoded call with function name,
call signature and argument strings. -/
inductive RawOrDecodedCall where
  | raw (bytes : List Nat)
  | decoded (func : String) (sig : String) (args : List String)
deriving DecidableEq

/-- Modelled from the spec: one call-trace record of the external `trace`
module — callee address, optional contract name, recorded gas cost, the
"was this call a contract creation" flag (the external `created()`
predicate), and the payload. -/
structure CallTrace where
  address : Nat
  contract : Option String
  gas_cost : Nat
  created : Bool
  data : RawOrDecodedCall
deriving DecidableEq

/-- Modelled from the spec: the call-trace tree. The external arena is a
random-access node collection with child index lists; the core assumes
it is acyclic and index-valid, so it is embedded as an inductive tree
(node before children, children in listed order). -/
inductive TraceTree where
  | node (trace : CallTrace) (children : List TraceTree)

/-- Modelled from the spec: the external `TraceKind` tag paired with each
arena; `analyze` ignores it. -/
inductive TraceKind where
  | deployment
  | setup
  | execution
deriving DecidableEq

/-- Per-function-signature sample collector and derived statistics
(`GasInfo` in the source; `U256` values as `Nat`). -/
structure GasInfo where
  calls : List Nat
  min : Nat
  mean : Nat
  median : Nat
  max : Nat
deriving DecidableEq

instance : Inhabited GasInfo := ⟨⟨[], 0, 0, 0, 0⟩⟩

/-- Per-contract deployment info plus function → signature → GasInfo
(`ContractInfo` in the source). The two `BTreeMap` levels are sorted
association lists. -/
structure ContractInfo where
  gas : Nat
  size : Nat
  functions : List (String × List (String × GasInfo))
deriving DecidableEq

instance : Inhabited ContractInfo := ⟨⟨0, 0, []⟩⟩

/-- Top-level aggregator (`GasReport` in the source): the `report_for`
filter list and the contract-name → ContractInfo map. -/
structure GasReport where
  report_for : List String
  contracts : List (String × ContractInfo)
deriving DecidableEq

/-- `GasReport::new`. -/
def GasReport.new (report_for : List String) : GasReport :=
  { report_for := report_for, contracts := [] }

/-- `BTreeMap::entry(k).or_insert_with(default)` followed by mutating the
entry with `f`: replace the value at `k` (first occurrence), or insert
`(k, f d)` at its sorted position when `k` is absent. -/
def btreeUpdate {β : Type} (k : String) (f : β → β) (d : β) :
    List (String × β) → List (String × β)
  | [] => [(k, f d)]
  | (a, b) :: m =>
    if k < a then (k, f d) :: (a, b) :: m
    else if k = a then (a, f b) :: m
    else (a, b) :: btreeUpdate k f d m

/-- `BTreeMap::get`: first-match lookup. -/
def btreeFind {β : Type} (k : String) : List (String × β) → Option β
  | [] => none
  | (a, b) :: m => if k = a then some b else btreeFind k m

/-- `name.rsplit(':').next().unwrap_or(name)`: the component of a
(possibly `path:Contract`-shaped) identifier after its last `:`
delimiter — the maximal delimiter-free suffix — or the whole name when
no delimiter is present. -/
def lastComponent (name : String) : String :=
  String.mk ((name.toList.reverse.takeWhile (fun c => c ≠ ':')).reverse)

/-- The `report_for_all` flag computed once per `analyze` call:
the filter list is empty or contains the wildcard `"*"`. -/
def reportForAll (report_for : List String) : Bool :=
  report_for.isEmpty || report_for.any (fun s => s == "*")

/-- The per-node inclusion test of `analyze_node`: the filter list
contains the name's trailing component, or `report_for_all` holds. -/
def inScope (report_for : List String) (name : String) : Bool :=
  report_for.any (fun s => s == lastComponent name) || reportForAll report_for

/-- `Vec::push` of one gas-cost sample onto a GasInfo. -/
def pushCall (gas : Nat) (gi : GasInfo) : GasInfo :=
  { gi with calls := gi.calls ++ [gas] }

/-- The `match &trace.data` dispatch of `analyze_node`, applied to the
(looked-up or freshly defaulted) ContractInfo entry: a raw payload with
the creation flag set overwrites `gas`/`size`; a decoded call that is
neither a test nor a setup function appends a sample; anything else is
a no-op (the entry itself was still created). `is_test`/`is_setup` are
the external classification predicates. -/
def applyTraceData (is_test is_setup : String → Bool) (trace : CallTrace)
    (ci : ContractInfo) : ContractInfo :=
  match trace.data with
  | .raw bytes =>
    if trace.created then
      { ci with gas := trace.gas_cost, size := bytes.length }
    else ci
  | .decoded func sig _ =>
    if !is_test func && !is_setup func then
      let fns := btreeUpdate func (btreeUpdate sig (pushCall trace.gas_cost) default) [] ci.functions
      { ci with functions := fns }
    else ci

mutual

/-- `GasReport::analyze_node`: skip (and return, children included) on a
sentinel callee address; otherwise, when the node names a contract that
passes the filter, create-or-update its ContractInfo entry; then recurse
into the children in listed order. -/
def analyzeNode (is_test is_setup : String → Bool) (rfa : Bool)
    (r : GasReport) : TraceTree → GasReport
  | .node trace children =>
    if trace.address = CHEATCODE_ADDRESS ∨
        trace.address = HARDHAT_CONSOLE_ADDRESS then r
    else
      let r1 :=
        match trace.contract with
        | none => r
        | some name =>
          if r.report_for.any (fun s => s == lastComponent name) || rfa then
            let cs := btreeUpdate name (applyTraceData is_test is_setup trace) default r.contracts
            { r with contracts := cs }
          else r
      analyzeList is_test is_setup rfa r1 children

/-- The `node.children.iter().for_each(...)` loop: analyze a list of
subtrees left to right, threading the report. -/
def analyzeList (is_test is_setup : String → Bool) (rfa : Bool)
    (r : GasReport) : List TraceTree → GasReport
  | [] => r
  | t :: ts =>
    analyzeList is_test is_setup rfa (analyzeNode is_test is_setup rfa r t) ts

end

/-- `GasReport::analyze`: compute `report_for_all` once, then walk each
trace tree from its root (the `TraceKind` component is ignored). -/
def GasReport.analyze (is_test is_setup : String → Bool) (r : GasReport)
    (traces : List (TraceKind × TraceTree)) : GasReport :=
  analyzeList is_test is_setup (reportForAll r.report_for) r
    (traces.map Prod.snd)

/-- Modelled from the spec: the external `calc::mean` — arithmetic mean
of the samples with truncating unsigned division, zero when empty. -/
def calcMean (l : List Nat) : Nat :=
  if l.length = 0 then 0 else l.sum / l.length

/-- Modelled from the spec: the external `calc::median_sorted` — the
median of an already-sorted sequence, taking the lower of the two middle
elements on even count (no interpolation), zero when empty. -/
def medianSorted (l : List Nat) : Nat :=
  if l.length = 0 then 0 else l.getD ((l.length - 1) / 2) 0

/-- The per-GasInfo body of `GasReport::finalize`: sort the samples
ascending (`sort_unstable`), then set `min` to the first element, `max`
to the last (zero defaults when empty), and derive `mean`/`median`. -/
def finalizeGasInfo (gi : GasInfo) : GasInfo :=
  let sorted := gi.calls.insertionSort (· ≤ ·)
  { calls := sorted
    min := sorted.headD 0
    mean := calcMean sorted
    median := medianSorted sorted
    max := sorted.getLastD 0 }

/-- `finalize` applied to one signature map. -/
def finalizeSigs (sigs : List (String × GasInfo)) : List (String × GasInfo) :=
  sigs.map (fun p => (p.1, finalizeGasInfo p.2))

/-- `finalize` applied to one ContractInfo: deployment `gas`/`size` are
untouched; every reachable GasInfo is finalized. -/
def finalizeContract (ci : ContractInfo) : ContractInfo :=
  { ci with functions := ci.functions.map (fun p => (p.1, finalizeSigs p.2)) }

/-- `GasReport::finalize`. -/
def GasReport.finalize (r : GasReport) : GasReport :=
  { r with contracts := r.contracts.map (fun p => (p.1, finalizeContract p.2)) }

/-- `sig.replace(':', "")`: the signature string with its delimiter
punctuation removed, used for overloaded functions in the rendering. -/
def removeColons (sig : String) : String :=
  sig.replace ":" ""

/-- The displayed name for one `(function name, signature)` row: the bare
function name when the signature map for that name has exactly one
entry, otherwise the colon-stripped signature. -/
def fnDisplay (fname : String) (sigs : List (String × GasInfo)) (sig : String) : String :=
  if sigs.length = 1 then fname else removeColons sig

/-- One rendered table row: displayed name, `min`, `mean` (avg),
`median`, `max`, and the number of recorded calls. -/
def renderRow (fname : String) (sigs : List (String × GasInfo))
    (sig : String) (gi : GasInfo) : String × Nat × Nat × Nat × Nat × Nat :=
  (fnDisplay fname sigs sig, gi.min, gi.mean, gi.median, gi.max, gi.calls.length)

/-- All per-function rows of one contract's table, iterated in the key
order of both map levels. -/
def renderRows (functions : List (String × List (String × GasInfo))) :
    List (String × Nat × Nat × Nat × Nat × Nat) :=
  functions.flatMap (fun fp => fp.2.map (fun sp => renderRow fp.1 fp.2 sp.1 sp.2))

/-- One table section of the `Display` output: the contract-name header,
the deployment cost/size row, and the per-function rows. Visual styling
belongs to the external table library and is not modelled. -/
structure TableSection where
  contractName : String
  deploymentGas : Nat
  deploymentSize : Nat
  rows : List (String × Nat × Nat × Nat × Nat × Nat)
deriving DecidableEq

/-- The `Display` implementation as the list of emitted table sections:
iterate `contracts` in map (key) order, skipping every contract whose
`functions` map is empty. -/
def GasReport.render (r : GasReport) : List TableSection :=
  (r.contracts.filter (fun p => !p.2.functions.isEmpty)).map
    (fun p => ⟨p.1, p.2.gas, p.2.size, renderRows p.2.functions⟩)

/-- A two-contract report (one with an empty `functions` map but nonzero
deployment values, one with a recorded function) used to exercise the
rendering properties at a concrete input. -/
def sampleRenderReport : GasReport :=
  ⟨[], [("A", ⟨7, 8, []⟩), ("B", ⟨1, 2, [("f", [("f()", ⟨[3], 0, 0, 0, 0⟩)])]⟩)]⟩

/-- Every GasInfo reachable through `contracts` has a non-empty sample
sequence (the invariant analysis maintains: a GasInfo is only ever
created together with its first appended sample). -/
def CallsNonempty (r : GasReport) : Prop :=
  ∀ p ∈ r.contracts, ∀ q ∈ p.2.functions, ∀ w ∈ q.2, w.2.calls ≠ []

/-- The `(gas, size)` pair recorded for contract `name`: the entry's
`gas`/`size` when present, and the `(0, 0)` defaults when absent (a
freshly created entry carries exactly these defaults). -/
def recordedGasSize (name : String) (r : GasReport) : Nat × Nat :=
  match btreeFind name r.contracts with
  | none => (0, 0)
  | some ci => (ci.gas, ci.size)

/-- The creation-call observation one node contributes for contract
`name`: its `(gas cost, bytecode length)` when the node names `name`,
passes the filter, and carries a raw payload with the creation flag set;
nothing otherwise. Specification-side companion of the `analyze_node`
dispatch, used to state the last-creation-wins property. -/
def creationObsOwn (F : List String) (rfa : Bool) (name : String)
    (trace : CallTrace) : List (Nat × Nat) :=
  match trace.contract, trace.data with
  | some n, .raw bytes =>
    if n = name ∧ trace.created = true ∧
        (F.any (fun s => s == lastComponent n) || rfa) = true then
      [(trace.gas_cost, bytes.length)]
    else []
  | _, _ => []

mutual

/-- The sequence of qualifying creation-call observations for contract
`name` in traversal order over one tree: nothing from (or below) a
sentinel-addressed node, otherwise the node's own observation followed
by its children's, in listed order. -/
def creationObsNode (F : List String) (rfa : Bool) (name : String) :
    TraceTree → List (Nat × Nat)
  | .node trace children =>
    if trace.address = CHEATCODE_ADDRESS ∨
        trace.address = HARDHAT_CONSOLE_ADDRESS then []
    else creationObsOwn F rfa name trace ++ creationObsList F rfa name children

/-- The concatenated creation-call observations of a list of subtrees,
left to right. -/
def creationObsList (F : List String) (rfa : Bool) (name : String) :
    List TraceTree → List (Nat × Nat)
  | [] => []
  | t :: ts => creationObsNode F rfa name t ++ creationObsList F rfa name ts

end

theorem btreeFind_eq_none {β : Type} (k : String) (m : List (String × β))
    (h : ∀ y ∈ m, k ≠ y.1) : btreeFind k m = none := by
  induction m with
  | nil => simp [btreeFind]
  | cons p m ih =>
    have hk : k ≠ p.1 := h p (by simp)
    simp only [btreeFind, hk, if_false]
    exact ih (fun y hy => h y (by simp [hy]))

theorem btreeFind_btreeUpdate {β : Type} (k : String) (f : β → β) (d : β)
    (m : List (String × β)) (hm : m.Pairwise (fun x y => x.1 < y.1)) :
    btreeFind k (btreeUpdate k f d m) = some (f ((btreeFind k m).getD d)) := by
  induction m with
  | nil => simp [btreeUpdate, btreeFind]
  | cons p m ih =>
    obtain ⟨a, b⟩ := p
    rw [List.pairwise_cons] at hm
    by_cases hlt : k < a
    · have hne : k ≠ a := ne_of_lt hlt
      have hnone : btreeFind k m = none := by
        refine btreeFind_eq_none k m (fun y hy => ?_)
        have := hm.1 y hy
        exact ne_of_lt (lt_trans hlt this)
      simp [btreeUpdate, btreeFind, hlt, hne, hnone]
    · by_cases heq : k = a
      · subst heq
        simp [btreeUpdate, btreeFind, hlt]
      · simp [btreeUpdate, btreeFind, hlt, heq, ih hm.2]

theorem btreeUpdate_values {β : Type} (q : β → Prop) (k : String) (f : β → β)
    (d : β) (m : List (String × β)) (hm : ∀ x ∈ m, q x.2)
    (hf : ∀ b, q b → q (f b)) (hd : q (f d)) :
    ∀ x ∈ btreeUpdate k f d m, q x.2 := by
  induction m with
  | nil =>
    intro x hx
    simp [btreeUpdate] at hx
    subst hx; exact hd
  | cons p m ih =>
    obtain ⟨a, b⟩ := p
    intro x hx
    by_cases hlt : k < a
    · simp [btreeUpdate, hlt] at hx
      rcases hx with h | h | h
      · subst h; exact hd
      · subst h; exact hm (a, b) (by simp)
      · exact hm x (by simp [h])
    · by_cases heq : k = a
      · simp [btreeUpdate, hlt, heq] at hx
        rcases hx with h | h
        · subst h; exact hf b (hm (a, b) (by simp))
        · exact hm x (by simp [h])
      · simp [btreeUpdate, hlt, heq] at hx
        rcases hx with h | h
        · subst h; exact hm (a, b) (by simp)
        · exact ih (fun y hy => hm y (by simp [hy])) x h

/-- C2: a contract name `n` is in reporting scope for filter list `F`
iff `F` is empty, or `F` contains the wildcard `"*"`, or `F` contains
the component of `n` after its last `:` delimiter (the whole of `n`
when no delimiter is present). -/
theorem inScope_iff_empty_or_wildcard_or_suffix (F : List String) (n : String) :
    inScope F n = true ↔ (F = [] ∨ "*" ∈ F ∨ lastComponent n ∈ F) := by
  simp only [inScope, reportForAll, Bool.or_eq_true, List.any_eq_true, beq_iff_eq,
    List.isEmpty_iff]
  constructor
  · rintro (⟨s, hs, rfl⟩ | h | ⟨s, hs, rfl⟩)
    · exact Or.inr (Or.inr hs)
    · exact Or.inl h
    · exact Or.inr (Or.inl hs)
  · rintro (h | h | h)
    · exact Or.inr (Or.inl h)
    · exact Or.inr (Or.inr ⟨"*", h, rfl⟩)
    · exact Or.inl ⟨lastComponent n, h, rfl⟩

/-- C1 counterexample: at a concrete input the claim fails. A tree whose
root has the cheat-code sentinel address and one child that is a
qualifying creation call for contract "A" is analyzed to the unchanged
report — the child is never visited — whereas evaluating the children
independently (as the claim asserts) would record contract "A". -/
theorem sentinel_children_not_recursed_cex :
    ¬ (analyzeNode (fun _ => false) (fun _ => false) true (GasReport.new [])
        (.node ⟨CHEATCODE_ADDRESS, none, 0, false, .raw []⟩
          [.node ⟨1, some "A", 100, true, .raw [0]⟩ []])
      = analyzeList (fun _ => false) (fun _ => false) true (GasReport.new [])
          [.node ⟨1, some "A", 100, true, .raw [0]⟩ []]) := by
  intro h
  simp [analyzeNode, analyzeList, applyTraceData, btreeUpdate, GasReport.new,
    CHEATCODE_ADDRESS, HARDHAT_CONSOLE_ADDRESS, GasReport.mk.injEq] at h

/-- C1 (amended): a node whose callee address equals the cheat-code or
console-logging sentinel address contributes nothing to any aggregation
AND none of its children are visited — `analyze_node` returns before the
recursive children loop, so the whole subtree is skipped; traversal
continues only with the node's siblings. -/
theorem sentinel_skips_whole_subtree (is_test is_setup : String → Bool)
    (rfa : Bool) (r : GasReport) (trace : CallTrace) (children : List TraceTree)
    (h : trace.address = CHEATCODE_ADDRESS ∨ trace.address = HARDHAT_CONSOLE_ADDRESS) :
    analyzeNode is_test is_setup rfa r (.node trace children) = r := by
  rw [analyzeNode, if_pos h]

theorem sentinel_skips_whole_subtree_witness :
    analyzeNode (fun _ => false) (fun _ => false) true (GasReport.new [])
      (.node ⟨HARDHAT_CONSOLE_ADDRESS, some "A", 9, true, .raw [0]⟩
        [.node ⟨1, some "A", 100, true, .raw [0]⟩ []])
    = GasReport.new [] :=
  sentinel_skips_whole_subtree (fun _ => false) (fun _ => false) true
    (GasReport.new []) ⟨HARDHAT_CONSOLE_ADDRESS, some "A", 9, true, .raw [0]⟩
    [.node ⟨1, some "A", 100, true, .raw [0]⟩ []] (Or.inr rfl)

/-- C10: there is an input for which `analyze` creates a contracts entry
with all-default values (gas 0, size 0, empty functions map) for a
contract that contributed no deployment and no call sample: a node that
names a contract and passes the (empty) filter but carries a raw
non-creation payload creates the entry before the payload dispatch, so
the contract appears in the serialized report while the rendering —
which skips contracts with empty `functions` — emits no table for it. -/
theorem raw_non_creation_creates_default_entry :
    ((GasReport.new []).analyze (fun _ => false) (fun _ => false)
        [(TraceKind.execution, .node ⟨1, some "B", 50, false, .raw [0, 1]⟩ [])]).contracts
      = [("B", ⟨0, 0, []⟩)]
    ∧ ((GasReport.new []).analyze (fun _ => false) (fun _ => false)
        [(TraceKind.execution, .node ⟨1, some "B", 50, false, .raw [0, 1]⟩ [])]).render
      = [] := by
  constructor
  · simp [GasReport.analyze, GasReport.new, reportForAll, analyzeList, analyzeNode,
      applyTraceData, btreeUpdate, CHEATCODE_ADDRESS, HARDHAT_CONSOLE_ADDRESS,
      instInhabitedContractInfo]
  · simp [GasReport.render, GasReport.analyze, GasReport.new, reportForAll, analyzeList,
      analyzeNode, applyTraceData, btreeUpdate, CHEATCODE_ADDRESS, HARDHAT_CONSOLE_ADDRESS,
      instInhabitedContractInfo]

theorem analyze_preservation (is_test is_setup : String → Bool) (rfa : Bool)
    (P : GasReport → Prop)
    (hupd : ∀ (r : GasReport) (name : String) (trace : CallTrace), P r →
      P { r with contracts :=
            btreeUpdate name (applyTraceData is_test is_setup trace) default r.contracts }) :
    ∀ k : Nat,
      (∀ t : TraceTree, sizeOf t ≤ k → ∀ r, P r →
        P (analyzeNode is_test is_setup rfa r t)) ∧
      (∀ ts : List TraceTree, sizeOf ts ≤ k → ∀ r, P r →
        P (analyzeList is_test is_setup rfa r ts)) := by
  intro k
  induction k with
  | zero =>
    constructor
    · intro t ht
      cases t with
      | node trace children => simp at ht
    · intro ts hts
      cases ts with
      | nil => simp at hts
      | cons t ts => simp at hts
  | succ k ih =>
    obtain ⟨ihN, ihL⟩ := ih
    constructor
    · intro t ht r hr
      cases t with
      | node trace children =>
        have hch : sizeOf children ≤ k := by simp at ht; omega
        by_cases hs : trace.address = CHEATCODE_ADDRESS ∨
            trace.address = HARDHAT_CONSOLE_ADDRESS
        · rw [analyzeNode, if_pos hs]
          exact hr
        · rw [analyzeNode, if_neg hs]
          refine ihL children hch _ ?_
          cases hc : trace.contract with
          | none => exact hr
          | some name =>
            by_cases hsc : (r.report_for.any (fun s => s == lastComponent name) || rfa) = true
            · simp only [hsc, if_true]
              exact hupd r name trace hr
            · simp only [hsc, if_false]
              exact hr
    · intro ts hts r hr
      cases ts with
      | nil =>
        rw [analyzeList]
        exact hr
      | cons t ts =>
        have h1 : sizeOf t ≤ k := by simp at hts; omega
        have h2 : sizeOf ts ≤ k := by simp at hts; omega
        rw [analyzeList]
        exact ihL ts h2 _ (ihN t h1 r hr)

/-- C6: an empty sample sequence finalizes to all-zero statistics (and
stays empty), a fresh report satisfies the calls-nonempty invariant, and
`analyze` preserves it: every GasInfo reachable through `contracts` after
any amount of analysis has a non-empty `calls` sequence, because a
GasInfo entry is only ever created together with its first appended
sample. -/
theorem empty_finalizes_zero_and_no_spontaneous_gasinfo :
    (∀ gi : GasInfo, gi.calls = [] → finalizeGasInfo gi = ⟨[], 0, 0, 0, 0⟩)
    ∧ (∀ F : List String, CallsNonempty (GasReport.new F))
    ∧ (∀ (is_test is_setup : String → Bool) (r : GasReport)
        (traces : List (TraceKind × TraceTree)),
        CallsNonempty r → CallsNonempty (r.analyze is_test is_setup traces)) := by
  refine ⟨?_, ?_, ?_⟩
  · intro gi h
    simp [finalizeGasInfo, h, List.insertionSort, calcMean, medianSorted]
  · intro F p hp
    simp [GasReport.new] at hp
  · intro is_test is_setup r traces hr
    have hupd : ∀ (r : GasReport) (name : String) (trace : CallTrace),
        CallsNonempty r →
        CallsNonempty { r with contracts := btreeUpdate name (applyTraceData is_test is_setup trace) default r.contracts } := by
      intro r name trace hr
      intro p hp
      have hci : ∀ ci : ContractInfo,
          (∀ q ∈ ci.functions, ∀ w ∈ q.2, w.2.calls ≠ []) →
          ∀ q ∈ (applyTraceData is_test is_setup trace ci).functions,
            ∀ w ∈ q.2, w.2.calls ≠ [] := by
        intro ci hq
        cases hdata : trace.data with
        | raw bytes =>
          by_cases hcr : trace.created = true
          · simp only [applyTraceData, hdata, hcr, if_true]
            exact hq
          · simp only [applyTraceData, hdata, hcr, if_false]
            exact hq
        | decoded func sig args =>
          by_cases htest : (!is_test func && !is_setup func) = true
          · simp only [applyTraceData, hdata, htest, if_true]
            refine btreeUpdate_values
              (fun sigs : List (String × GasInfo) => ∀ w ∈ sigs, w.2.calls ≠ [])
              func _ [] ci.functions hq ?_ ?_
            · intro sigs hsigs
              refine btreeUpdate_values (fun gi : GasInfo => gi.calls ≠ [])
                sig _ default sigs hsigs ?_ ?_
              · intro gi hgi
                simp [pushCall]
              · simp [pushCall]
            · refine btreeUpdate_values (fun gi : GasInfo => gi.calls ≠ [])
                sig _ default [] (by simp) ?_ ?_
              · intro gi hgi
                simp [pushCall]
              · simp [pushCall]
          · simp only [applyTraceData, hdata, htest, if_false]
            exact hq
      refine btreeUpdate_values
        (fun ci => ∀ q ∈ ci.functions, ∀ w ∈ q.2, w.2.calls ≠ [])
        name _ default r.contracts (fun x hx => hr x hx) ?_ ?_ p hp
      · intro ci h
        exact hci ci h
      · refine hci default ?_
        intro q hq
        simp [default] at hq
    have := (analyze_preservation is_test is_setup (reportForAll r.report_for)
      CallsNonempty hupd (sizeOf (traces.map Prod.snd))).2
      (traces.map Prod.snd) (le_refl _) r hr
    exact this

theorem finalizeGasInfo_idem (gi : GasInfo) :
    finalizeGasInfo (finalizeGasInfo gi) = finalizeGasInfo gi := by
  have hs : (gi.calls.insertionSort (· ≤ ·)).Sorted (· ≤ ·) :=
    List.sorted_insertionSort _ _
  simp [finalizeGasInfo, hs.insertionSort_eq]

theorem finalizeSigs_idem (sigs : List (String × GasInfo)) :
    finalizeSigs (finalizeSigs sigs) = finalizeSigs sigs := by
  simp only [finalizeSigs, List.map_map]
  refine List.map_congr_left ?_
  intro p _
  simp [finalizeGasInfo_idem]

theorem finalizeContract_idem (ci : ContractInfo) :
    finalizeContract (finalizeContract ci) = finalizeContract ci := by
  simp only [finalizeContract, List.map_map]
  congr 1
  refine List.map_congr_left ?_
  intro p _
  simp [finalizeSigs_idem]

/-- C9: `finalize` is idempotent — a second application to an
already-finalized report changes nothing: sorting an already-sorted
sample sequence leaves it unchanged, so every contract's `gas`/`size`
and every GasInfo's `calls`/`min`/`mean`/`median`/`max` are reproduced
identically. -/
theorem finalize_idempotent (r : GasReport) :
    r.finalize.finalize = r.finalize := by
  simp only [GasReport.finalize, List.map_map]
  congr 1
  refine List.map_congr_left ?_
  intro p _
  simp [finalizeContract_idem]

theorem empty_finalizes_zero_and_no_spontaneous_gasinfo_witness :
    finalizeGasInfo ⟨[], 1, 2, 3, 4⟩ = ⟨[], 0, 0, 0, 0⟩
    ∧ CallsNonempty ((GasReport.new ["*"]).analyze (fun _ => false) (fun _ => false) []) :=
  ⟨empty_finalizes_zero_and_no_spontaneous_gasinfo.1 ⟨[], 1, 2, 3, 4⟩ rfl,
   empty_finalizes_zero_and_no_spontaneous_gasinfo.2.2 (fun _ => false) (fun _ => false)
     (GasReport.new ["*"]) []
     (empty_finalizes_zero_and_no_spontaneous_gasinfo.2.1 ["*"])⟩

/-- C4: the worked scenario — empty filter, one tree with a creation
call for contract "A" (gas 100000, 500 raw bytes) and two qualifying
decoded calls to `transfer` / `transfer(address,uint256)` costing 21000
and 23000 — finalizes to `gas = 100000`, `size = 500`, and a GasInfo
with `calls = [21000, 23000]`, `min = 21000`, `max = 23000`,
`mean = 22000`, `median = 21000` (the lower middle element on even
count). -/
theorem scenario_creation_and_two_calls :
    btreeFind "A" (((GasReport.new []).analyze (fun _ => false) (fun _ => false)
        [(TraceKind.execution,
          .node ⟨1, some "A", 100000, true, .raw (List.replicate 500 0)⟩
            [.node ⟨1, some "A", 21000, false,
               .decoded "transfer" "transfer(address,uint256)" []⟩ [],
             .node ⟨1, some "A", 23000, false,
               .decoded "transfer" "transfer(address,uint256)" []⟩ []])]).finalize).contracts
      = some ⟨100000, 500,
          [("transfer",
            [("transfer(address,uint256)", ⟨[21000, 23000], 21000, 22000, 21000, 23000⟩)])]⟩ := by
  set_option maxRecDepth 4000 in
  simp [GasReport.analyze, GasReport.new, reportForAll, analyzeList, analyzeNode,
    applyTraceData, btreeUpdate, btreeFind, pushCall, GasReport.finalize, finalizeContract,
    finalizeSigs, finalizeGasInfo, calcMean, medianSorted, CHEATCODE_ADDRESS,
    HARDHAT_CONSOLE_ADDRESS, List.insertionSort, List.orderedInsert, List.getD,
    instInhabitedGasInfo, instInhabitedContractInfo]

theorem headD_mem_of_ne_nil (l : List Nat) (h : l ≠ []) : l.headD 0 ∈ l := by
  cases l with
  | nil => exact absurd rfl h
  | cons a t => simp

theorem getLastD_mem_of_ne_nil (l : List Nat) (d : Nat) (h : l ≠ []) :
    l.getLastD d ∈ l := by
  induction l generalizing d with
  | nil => exact absurd rfl h
  | cons a t ih =>
    rw [List.getLastD_cons]
    cases t with
    | nil => simp [List.getLastD]
    | cons b u => exact List.mem_cons_of_mem a (ih a (by simp))

theorem sorted_headD_le (l : List Nat) (hs : l.Sorted (· ≤ ·)) :
    ∀ x ∈ l, l.headD 0 ≤ x := by
  cases l with
  | nil => simp
  | cons a t =>
    intro x hx
    rcases List.mem_cons.mp hx with rfl | hx
    · simp
    · exact (List.sorted_cons.mp hs).1 x hx

theorem sorted_le_getLastD (l : List Nat) (d : Nat) (hs : l.Sorted (· ≤ ·)) :
    ∀ x ∈ l, x ≤ l.getLastD d := by
  induction l generalizing d with
  | nil => simp
  | cons a t ih =>
    intro x hx
    rw [List.getLastD_cons]
    rcases List.mem_cons.mp hx with rfl | hx
    · cases t with
      | nil => simp [List.getLastD]
      | cons b u =>
        have hmem : (b :: u).getLastD x ∈ b :: u :=
          getLastD_mem_of_ne_nil (b :: u) x (by simp)
        exact (List.sorted_cons.mp hs).1 _ hmem
    · exact ih a (List.Sorted.of_cons hs) x hx

theorem medianSorted_mem (l : List Nat) (h : l ≠ []) : medianSorted l ∈ l := by
  have hlen : l.length ≠ 0 := by simpa [List.length_eq_zero] using h
  have hidx : (l.length - 1) / 2 < l.length := by
    have := Nat.div_le_self (l.length - 1) 2
    omega
  rw [medianSorted, if_neg hlen, List.getD_eq_getElem l 0 hidx]
  exact l.get_mem _ _

theorem mul_length_le_sum (l : List Nat) (a : Nat) (h : ∀ x ∈ l, a ≤ x) :
    a * l.length ≤ l.sum := by
  induction l with
  | nil => simp
  | cons b t ih =>
    rw [List.length_cons, Nat.mul_succ, List.sum_cons, Nat.add_comm b t.sum]
    exact Nat.add_le_add (ih (fun x hx => h x (List.mem_cons_of_mem b hx)))
      (h b (List.mem_cons_self b t))

theorem sum_le_length_mul (l : List Nat) (b : Nat) (h : ∀ x ∈ l, x ≤ b) :
    l.sum ≤ l.length * b := by
  induction l with
  | nil => simp
  | cons a t ih =>
    rw [List.length_cons, Nat.succ_mul, List.sum_cons, Nat.add_comm a t.sum]
    exact Nat.add_le_add (ih (fun x hx => h x (List.mem_cons_of_mem a hx)))
      (h a (List.mem_cons_self a t))

/-- C3: after `finalize`, for every GasInfo with a non-empty sample
sequence, `min ≤ median ≤ max` and `min ≤ mean ≤ max` hold, and
`min`/`max` are respectively a member of and a lower/upper bound for the
original appended samples — characterizations invariant under the order
in which the samples were appended. -/
theorem finalize_stats_bounds (gi : GasInfo) (h : gi.calls ≠ []) :
    (finalizeGasInfo gi).min ≤ (finalizeGasInfo gi).median
    ∧ (finalizeGasInfo gi).median ≤ (finalizeGasInfo gi).max
    ∧ (finalizeGasInfo gi).min ≤ (finalizeGasInfo gi).mean
    ∧ (finalizeGasInfo gi).mean ≤ (finalizeGasInfo gi).max
    ∧ ((finalizeGasInfo gi).min ∈ gi.calls ∧ ∀ x ∈ gi.calls, (finalizeGasInfo gi).min ≤ x)
    ∧ ((finalizeGasInfo gi).max ∈ gi.calls ∧ ∀ x ∈ gi.calls, x ≤ (finalizeGasInfo gi).max) := by
  have hsort : (gi.calls.insertionSort (· ≤ ·)).Sorted (· ≤ ·) :=
    List.sorted_insertionSort _ _
  have hperm : List.Perm (gi.calls.insertionSort (· ≤ ·)) gi.calls :=
    List.perm_insertionSort _ _
  have hne : gi.calls.insertionSort (· ≤ ·) ≠ [] := by
    intro h0
    exact h (List.Perm.eq_nil (h0 ▸ hperm.symm))
  have hlen : (gi.calls.insertionSort (· ≤ ·)).length ≠ 0 := by
    intro h0
    exact hne (List.length_eq_zero.mp h0)
  have hmin : (finalizeGasInfo gi).min = (gi.calls.insertionSort (· ≤ ·)).headD 0 := rfl
  have hmax : (finalizeGasInfo gi).max = (gi.calls.insertionSort (· ≤ ·)).getLastD 0 := rfl
  have hmean : (finalizeGasInfo gi).mean = calcMean (gi.calls.insertionSort (· ≤ ·)) := rfl
  have hmed : (finalizeGasInfo gi).median = medianSorted (gi.calls.insertionSort (· ≤ ·)) := rfl
  have hmedmem : medianSorted (gi.calls.insertionSort (· ≤ ·)) ∈
      gi.calls.insertionSort (· ≤ ·) := medianSorted_mem _ hne
  have hminmem : (gi.calls.insertionSort (· ≤ ·)).headD 0 ∈
      gi.calls.insertionSort (· ≤ ·) := headD_mem_of_ne_nil _ hne
  have hmaxmem : (gi.calls.insertionSort (· ≤ ·)).getLastD 0 ∈
      gi.calls.insertionSort (· ≤ ·) := getLastD_mem_of_ne_nil _ 0 hne
  have hmeaneq : calcMean (gi.calls.insertionSort (· ≤ ·))
      = (gi.calls.insertionSort (· ≤ ·)).sum / (gi.calls.insertionSort (· ≤ ·)).length := by
    rw [calcMean, if_neg hlen]
  refine ⟨?_, ?_, ?_, ?_, ⟨?_, ?_⟩, ⟨?_, ?_⟩⟩
  · rw [hmin, hmed]
    exact sorted_headD_le _ hsort _ hmedmem
  · rw [hmed, hmax]
    exact sorted_le_getLastD _ 0 hsort _ hmedmem
  · rw [hmin, hmean, hmeaneq]
    refine (Nat.le_div_iff_mul_le (Nat.pos_of_ne_zero hlen)).mpr ?_
    exact mul_length_le_sum _ _ (sorted_headD_le _ hsort)
  · rw [hmean, hmax, hmeaneq]
    refine Nat.div_le_of_le_mul ?_
    exact sum_le_length_mul _ _ (sorted_le_getLastD _ 0 hsort)
  · rw [hmin]
    exact hperm.mem_iff.mp hminmem
  · intro x hx
    rw [hmin]
    exact sorted_headD_le _ hsort x (hperm.mem_iff.mpr hx)
  · rw [hmax]
    exact hperm.mem_iff.mp hmaxmem
  · intro x hx
    rw [hmax]
    exact sorted_le_getLastD _ 0 hsort x (hperm.mem_iff.mpr hx)

theorem finalize_stats_bounds_witness :
    (finalizeGasInfo ⟨[23000, 21000, 22500], 0, 0, 0, 0⟩).min
        ≤ (finalizeGasInfo ⟨[23000, 21000, 22500], 0, 0, 0, 0⟩).median
    ∧ (finalizeGasInfo ⟨[23000, 21000, 22500], 0, 0, 0, 0⟩).median
        ≤ (finalizeGasInfo ⟨[23000, 21000, 22500], 0, 0, 0, 0⟩).max
    ∧ (finalizeGasInfo ⟨[23000, 21000, 22500], 0, 0, 0, 0⟩).min
        ≤ (finalizeGasInfo ⟨[23000, 21000, 22500], 0, 0, 0, 0⟩).mean
    ∧ (finalizeGasInfo ⟨[23000, 21000, 22500], 0, 0, 0, 0⟩).mean
        ≤ (finalizeGasInfo ⟨[23000, 21000, 22500], 0, 0, 0, 0⟩).max
    ∧ ((finalizeGasInfo ⟨[23000, 21000, 22500], 0, 0, 0, 0⟩).min ∈ [23000, 21000, 22500]
        ∧ ∀ x ∈ [23000, 21000, 22500], (finalizeGasInfo ⟨[23000, 21000, 22500], 0, 0, 0, 0⟩).min ≤ x)
    ∧ ((finalizeGasInfo ⟨[23000, 21000, 22500], 0, 0, 0, 0⟩).max ∈ [23000, 21000, 22500]
        ∧ ∀ x ∈ [23000, 21000, 22500], x ≤ (finalizeGasInfo ⟨[23000, 21000, 22500], 0, 0, 0, 0⟩).max) :=
  finalize_stats_bounds ⟨[23000, 21000, 22500], 0, 0, 0, 0⟩ (by simp)

theorem key_unique_of_pairwise {β : Type} (m : List (String × β))
    (hsort : m.Pairwise (fun x y => x.1 < y.1)) :
    ∀ p ∈ m, ∀ q ∈ m, p.1 = q.1 → p = q := by
  intro p hp q hq hpq
  by_contra hne
  have hsym : Symmetric (fun x y : String × β => x.1 ≠ y.1) := by
    intro x y hxy
    exact (Ne.symm hxy)
  have := (hsort.imp (fun h => ne_of_lt h)).forall hsym hp hq hne
  exact this hpq

/-- C7: rendering emits no table section for a contract whose
`functions` map is empty (even when its deployment `gas`/`size` are
nonzero), emits exactly one section per contract with a non-empty
`functions` map, and emits sections in ascending (lexicographic)
contract-name order. -/
theorem render_skips_empty_functions (r : GasReport)
    (hsort : r.contracts.Pairwise (fun x y => x.1 < y.1)) :
    (∀ p ∈ r.contracts, p.2.functions = [] →
      ∀ s ∈ r.render, s.contractName ≠ p.1)
    ∧ (∀ p ∈ r.contracts, p.2.functions ≠ [] →
      (r.render.map TableSection.contractName).count p.1 = 1)
    ∧ (r.render.map TableSection.contractName).Pairwise (· < ·) := by
  have hnames : r.render.map TableSection.contractName
      = (r.contracts.filter (fun p => !p.2.functions.isEmpty)).map (fun p => p.1) := by
    simp [GasReport.render, List.map_map, Function.comp]
  have hfsort : (r.contracts.filter (fun p => !p.2.functions.isEmpty)).Pairwise
      (fun x y => x.1 < y.1) :=
    hsort.sublist (List.filter_sublist _)
  have hnsort : (r.render.map TableSection.contractName).Pairwise (· < ·) := by
    rw [hnames]
    exact List.pairwise_map.mpr hfsort
  refine ⟨?_, ?_, hnsort⟩
  · intro p hp hemp s hs hname
    obtain ⟨q, hqf, hqs⟩ := List.mem_map.mp hs
    have hq : q ∈ r.contracts ∧ (!q.2.functions.isEmpty) = true :=
      List.mem_filter.mp hqf
    have hq1 : q.1 = p.1 := by rw [← hname, ← hqs]
    have : q = p := key_unique_of_pairwise r.contracts hsort q hq.1 p hp hq1
    rw [this, hemp] at hq
    simp at hq
  · intro p hp hne
    have hmemf : p ∈ r.contracts.filter (fun p => !p.2.functions.isEmpty) := by
      refine List.mem_filter.mpr ⟨hp, ?_⟩
      simp [hne]
    have hnodup : (r.render.map TableSection.contractName).Nodup := by
      refine List.Pairwise.imp ?_ hnsort
      intro a b hab
      exact ne_of_lt hab
    refine List.count_eq_one_of_mem hnodup ?_
    rw [hnames]
    exact List.mem_map_of_mem (fun p => p.1) hmemf

theorem render_skips_empty_functions_witness :
    (∀ p ∈ sampleRenderReport.contracts, p.2.functions = [] →
      ∀ s ∈ sampleRenderReport.render, s.contractName ≠ p.1)
    ∧ (∀ p ∈ sampleRenderReport.contracts, p.2.functions ≠ [] →
      (sampleRenderReport.render.map TableSection.contractName).count p.1 = 1)
    ∧ (sampleRenderReport.render.map TableSection.contractName).Pairwise (· < ·) :=
  render_skips_empty_functions sampleRenderReport
    (by simp [sampleRenderReport]; decide)

/-- C8: in the rendered rows, the displayed name of a
`(function name, signature)` pair is the bare function name exactly when
that function name has a single recorded signature, and otherwise the
signature with its delimiter punctuation (`:`) removed; the row carrying
that display together with the GasInfo statistics appears among the
rendered rows. -/
theorem fn_display_bare_iff_single_sig
    (functions : List (String × List (String × GasInfo)))
    (fname : String) (sigs : List (String × GasInfo)) (sig : String) (gi : GasInfo)
    (h1 : (fname, sigs) ∈ functions) (h2 : (sig, gi) ∈ sigs) :
    (fnDisplay fname sigs sig, gi.min, gi.mean, gi.median, gi.max, gi.calls.length)
      ∈ renderRows functions
    ∧ (sigs.length = 1 → fnDisplay fname sigs sig = fname)
    ∧ (sigs.length ≠ 1 → fnDisplay fname sigs sig = removeColons sig) := by
  refine ⟨?_, ?_, ?_⟩
  · simp only [renderRows]
    refine List.mem_flatMap.mpr ⟨(fname, sigs), h1, ?_⟩
    exact List.mem_map.mpr ⟨(sig, gi), h2, rfl⟩
  · intro h
    simp [fnDisplay, h]
  · intro h
    simp [fnDisplay, h]

theorem fn_display_bare_iff_single_sig_witness :
    (fnDisplay "transfer" [("transfer(address,uint256)", ⟨[21000], 21000, 21000, 21000, 21000⟩)]
        "transfer(address,uint256)", 21000, 21000, 21000, 21000, 1)
      ∈ renderRows [("transfer",
          [("transfer(address,uint256)", ⟨[21000], 21000, 21000, 21000, 21000⟩)])]
    ∧ ([("transfer(address,uint256)",
          (⟨[21000], 21000, 21000, 21000, 21000⟩ : GasInfo))].length = 1 →
        fnDisplay "transfer"
          [("transfer(address,uint256)", ⟨[21000], 21000, 21000, 21000, 21000⟩)]
          "transfer(address,uint256)" = "transfer")
    ∧ ([("transfer(address,uint256)",
          (⟨[21000], 21000, 21000, 21000, 21000⟩ : GasInfo))].length ≠ 1 →
        fnDisplay "transfer"
          [("transfer(address,uint256)", ⟨[21000], 21000, 21000, 21000, 21000⟩)]
          "transfer(address,uint256)" = removeColons "transfer(address,uint256)") :=
  fn_display_bare_iff_single_sig
    [("transfer", [("transfer(address,uint256)", ⟨[21000], 21000, 21000, 21000, 21000⟩)])]
    "transfer" [("transfer(address,uint256)", ⟨[21000], 21000, 21000, 21000, 21000⟩)]
    "transfer(address,uint256)" ⟨[21000], 21000, 21000, 21000, 21000⟩
    (by simp) (by simp)

theorem getLastD_append_eq {α : Type} (l1 l2 : List α) (d : α) :
    (l1 ++ l2).getLastD d = l2.getLastD (l1.getLastD d) := by
  induction l1 generalizing d with
  | nil => simp
  | cons a t ih =>
    simp only [List.cons_append, List.getLastD_cons]
    exact ih a

theorem btreeFind_btreeUpdate_ne {β : Type} (k q : String) (hkq : k ≠ q)
    (f : β → β) (d : β) (m : List (String × β)) :
    btreeFind k (btreeUpdate q f d m) = btreeFind k m := by
  induction m with
  | nil => simp [btreeUpdate, btreeFind, hkq]
  | cons p m ih =>
    obtain ⟨a, b⟩ := p
    by_cases hlt : q < a
    · simp [btreeUpdate, btreeFind, hlt, hkq]
    · by_cases heq : q = a
      · subst heq
        simp [btreeUpdate, btreeFind, hlt, hkq]
      · simp [btreeUpdate, btreeFind, hlt, heq, ih]

theorem btreeUpdate_key_mem {β : Type} (k : String) (f : β → β) (d : β)
    (m : List (String × β)) :
    ∀ y ∈ btreeUpdate k f d m, y.1 = k ∨ ∃ z ∈ m, y.1 = z.1 := by
  induction m with
  | nil =>
    intro y hy
    simp [btreeUpdate] at hy
    subst hy
    exact Or.inl rfl
  | cons p m ih =>
    obtain ⟨a, b⟩ := p
    intro y hy
    by_cases hlt : k < a
    · simp [btreeUpdate, hlt] at hy
      rcases hy with h | h | h
      · subst h; exact Or.inl rfl
      · subst h; exact Or.inr ⟨(a, b), by simp, rfl⟩
      · exact Or.inr ⟨y, by simp [h], rfl⟩
    · by_cases heq : k = a
      · simp [btreeUpdate, hlt, heq] at hy
        rcases hy with h | h
        · subst h; exact Or.inr ⟨(a, b), by simp, rfl⟩
        · exact Or.inr ⟨y, by simp [h], rfl⟩
      · simp [btreeUpdate, hlt, heq] at hy
        rcases hy with h | h
        · subst h; exact Or.inr ⟨(a, b), by simp, rfl⟩
        · rcases ih y h with h1 | ⟨z, hz, h2⟩
          · exact Or.inl h1
          · exact Or.inr ⟨z, by simp [hz], h2⟩

theorem btreeUpdate_pairwise {β : Type} (k : String) (f : β → β) (d : β)
    (m : List (String × β)) (hm : m.Pairwise (fun x y => x.1 < y.1)) :
    (btreeUpdate k f d m).Pairwise (fun x y => x.1 < y.1) := by
  induction m with
  | nil => simp [btreeUpdate]
  | cons p m ih =>
    obtain ⟨a, b⟩ := p
    rw [List.pairwise_cons] at hm
    by_cases hlt : k < a
    · simp only [btreeUpdate, if_pos hlt]
      refine List.pairwise_cons.mpr ⟨?_, List.pairwise_cons.mpr ⟨hm.1, hm.2⟩⟩
      intro y hy
      rcases List.mem_cons.mp hy with rfl | hy
      · exact hlt
      · exact lt_trans hlt (hm.1 y hy)
    · by_cases heq : k = a
      · simp only [btreeUpdate, if_neg hlt, if_pos heq]
        exact List.pairwise_cons.mpr ⟨hm.1, hm.2⟩
      · simp only [btreeUpdate, if_neg hlt, if_neg heq]
        refine List.pairwise_cons.mpr ⟨?_, ih hm.2⟩
        intro y hy
        have hak : a < k := by
          rcases lt_trichotomy k a with h | h | h
          · exact absurd h hlt
          · exact absurd h heq
          · exact h
        rcases btreeUpdate_key_mem k f d m y hy with h1 | ⟨z, hz, h2⟩
        · rw [h1]; exact hak
        · rw [h2]; exact hm.1 z hz

theorem creation_traversal_tracking (is_test is_setup : String → Bool) (rfa : Bool)
    (F : List String) (cname : String) :
    ∀ k : Nat,
      (∀ t : TraceTree, sizeOf t ≤ k → ∀ r : GasReport, r.report_for = F →
        r.contracts.Pairwise (fun x y => x.1 < y.1) →
        recordedGasSize cname (analyzeNode is_test is_setup rfa r t)
            = (creationObsNode F rfa cname t).getLastD (recordedGasSize cname r)
          ∧ (analyzeNode is_test is_setup rfa r t).report_for = F
          ∧ (analyzeNode is_test is_setup rfa r t).contracts.Pairwise (fun x y => x.1 < y.1))
      ∧ (∀ ts : List TraceTree, sizeOf ts ≤ k → ∀ r : GasReport, r.report_for = F →
        r.contracts.Pairwise (fun x y => x.1 < y.1) →
        recordedGasSize cname (analyzeList is_test is_setup rfa r ts)
            = (creationObsList F rfa cname ts).getLastD (recordedGasSize cname r)
          ∧ (analyzeList is_test is_setup rfa r ts).report_for = F
          ∧ (analyzeList is_test is_setup rfa r ts).contracts.Pairwise (fun x y => x.1 < y.1)) := by
  intro k
  induction k with
  | zero =>
    constructor
    · intro t ht
      cases t with
      | node trace children => simp at ht
    · intro ts hts
      cases ts with
      | nil => simp at hts
      | cons t ts => simp at hts
  | succ k ih =>
    obtain ⟨ihN, ihL⟩ := ih
    constructor
    · intro t ht r hrF hsort
      cases t with
      | node trace children =>
        have hch : sizeOf children ≤ k := by simp at ht; omega
        by_cases hs : trace.address = CHEATCODE_ADDRESS ∨
            trace.address = HARDHAT_CONSOLE_ADDRESS
        · rw [analyzeNode, if_pos hs]
          refine ⟨?_, hrF, hsort⟩
          simp only [creationObsNode, if_pos hs]
          simp [List.getLastD]
        · rw [analyzeNode, if_neg hs]
          simp only [creationObsNode, if_neg hs]
          cases hc : trace.contract with
          | none =>
            have hown : creationObsOwn F rfa cname trace = [] := by
              simp [creationObsOwn, hc]
            rw [hown, List.nil_append]
            exact ihL children hch r hrF hsort
          | some n =>
            dsimp only
            by_cases hscope :
                (r.report_for.any (fun s => s == lastComponent n) || rfa) = true
            · rw [if_pos hscope]
              have hscopeF : (F.any (fun s => s == lastComponent n) || rfa) = true := by
                rw [← hrF]; exact hscope
              have hsort1 :
                  (btreeUpdate n (applyTraceData is_test is_setup trace) default
                    r.contracts).Pairwise (fun x y => x.1 < y.1) :=
                btreeUpdate_pairwise _ _ _ _ hsort
              have hstep :
                  recordedGasSize cname { r with contracts := btreeUpdate n (applyTraceData is_test is_setup trace) default r.contracts }
                    = (creationObsOwn F rfa cname trace).getLastD (recordedGasSize cname r) := by
                by_cases hn : n = cname
                · subst hn
                  simp only [recordedGasSize]
                  rw [btreeFind_btreeUpdate _ _ _ _ hsort]
                  cases hdata : trace.data with
                  | raw bytes =>
                    by_cases hcr : trace.created = true
                    · have hown : creationObsOwn F rfa n trace
                          = [(trace.gas_cost, bytes.length)] := by
                        simp [creationObsOwn, hc, hdata, hcr, hscopeF]
                      rw [hown]
                      simp [applyTraceData, hdata, hcr, List.getLastD]
                    · have hown : creationObsOwn F rfa n trace = [] := by
                        simp [creationObsOwn, hc, hdata, hcr]
                      rw [hown]
                      cases hold : btreeFind n r.contracts with
                      | none => simp [applyTraceData, hdata, hcr, List.getLastD, default]
                      | some ci => simp [applyTraceData, hdata, hcr, List.getLastD]
                  | decoded func sig args =>
                    have hown : creationObsOwn F rfa n trace = [] := by
                      simp [creationObsOwn, hc, hdata]
                    rw [hown]
                    by_cases htf : (!is_test func && !is_setup func) = true
                    · cases hold : btreeFind n r.contracts with
                      | none => simp [applyTraceData, hdata, htf, List.getLastD, default]
                      | some ci => simp [applyTraceData, hdata, htf, List.getLastD]
                    · cases hold : btreeFind n r.contracts with
                      | none => simp [applyTraceData, hdata, htf, List.getLastD, default]
                      | some ci => simp [applyTraceData, hdata, htf, List.getLastD]
                · have hown : creationObsOwn F rfa cname trace = [] := by
                    cases hdata : trace.data with
                    | raw bytes => simp [creationObsOwn, hc, hdata, hn]
                    | decoded func sig args => simp [creationObsOwn, hc, hdata]
                  rw [hown]
                  simp only [recordedGasSize]
                  rw [btreeFind_btreeUpdate_ne cname n (fun h => hn (h.symm)) _ _ _]
                  simp [List.getLastD]
              obtain ⟨h1, h2, h3⟩ := ihL children hch
                { r with contracts := btreeUpdate n (applyTraceData is_test is_setup trace) default r.contracts }
                hrF hsort1
              refine ⟨?_, h2, h3⟩
              rw [h1, hstep, getLastD_append_eq]
            · rw [if_neg hscope]
              have hown : creationObsOwn F rfa cname trace = [] := by
                have hscopeF : ¬ (F.any (fun s => s == lastComponent n) || rfa) = true := by
                  rw [← hrF]; exact hscope
                cases hdata : trace.data with
                | raw bytes => simp [creationObsOwn, hc, hdata, hscopeF]
                | decoded func sig args => simp [creationObsOwn, hc, hdata]
              rw [hown, List.nil_append]
              exact ihL children hch r hrF hsort
    · intro ts hts r hrF hsort
      cases ts with
      | nil =>
        rw [analyzeList]
        refine ⟨?_, hrF, hsort⟩
        simp [creationObsList, List.getLastD]
      | cons t ts =>
        have h1 : sizeOf t ≤ k := by simp at hts; omega
        have h2 : sizeOf ts ≤ k := by simp at hts; omega
        rw [analyzeList]
        obtain ⟨ha, hb, hcp⟩ := ihN t h1 r hrF hsort
        obtain ⟨hd, he, hp⟩ := ihL ts h2 _ hb hcp
        refine ⟨?_, he, hp⟩
        rw [hd, ha]
        simp only [creationObsList]
        rw [getLastD_append_eq]

/-- C5: over a full `analyze` call from an arbitrary starting report
(hence also across several successive `analyze` calls, by chaining),
the recorded `(gas, size)` for a contract equals the creation-call
observation visited LAST in traversal order, falling back to the
previously recorded values when the traversal contains no qualifying
creation for that contract: each creation overwrites (never
accumulates), and every other node — later non-creation payloads,
filtered nodes, other contracts — preserves the recorded values. -/
theorem creation_call_overwrites_gas_size (is_test is_setup : String → Bool)
    (r : GasReport) (traces : List (TraceKind × TraceTree)) (cname : String)
    (hsort : r.contracts.Pairwise (fun x y => x.1 < y.1)) :
    recordedGasSize cname (r.analyze is_test is_setup traces)
      = (creationObsList r.report_for (reportForAll r.report_for) cname
          (traces.map Prod.snd)).getLastD (recordedGasSize cname r) :=
  ((creation_traversal_tracking is_test is_setup (reportForAll r.report_for)
      r.report_for cname (sizeOf (traces.map Prod.snd))).2
    (traces.map Prod.snd) (le_refl _) r rfl hsort).1

theorem creation_call_overwrites_gas_size_witness :
    recordedGasSize "A" ((GasReport.new []).analyze (fun _ => false) (fun _ => false)
        [(TraceKind.execution, .node ⟨1, some "A", 100, true, .raw [0]⟩ []),
         (TraceKind.execution, .node ⟨1, some "A", 200, true, .raw [0, 1, 2]⟩ [])])
      = (creationObsList (GasReport.new []).report_for
          (reportForAll (GasReport.new []).report_for) "A"
          (([(TraceKind.execution, .node ⟨1, some "A", 100, true, .raw [0]⟩ []),
             (TraceKind.execution, .node ⟨1, some "A", 200, true, .raw [0, 1, 2]⟩ [])]
            : List (TraceKind × TraceTree)).map Prod.snd)).getLastD
          (recordedGasSize "A" (GasReport.new [])) :=
  creation_call_overwrites_gas_size (fun _ => false) (fun _ => false) (GasReport.new [])
    [(TraceKind.execution, .node ⟨1, some "A", 100, true, .raw [0]⟩ []),
     (TraceKind.execution, .node ⟨1, some "A", 200, true, .raw [0, 1, 2]⟩ [])]
    "A" (by simp [GasReport.new])
